import Mathlib

/-!
Verification of the vector-store specification against a shallow embedding of
`src/vector_search/simple_vector_store.py` (class `SimpleVectorStore`).

Modelling choices, stated once:

* The Redis backend is a namespaced hash-map store.  We model it as an
  association list from key (`String`) to a hash holding the three fields the
  store ever writes (`vector`, `metadata`, `created_at`).  `hset` is
  update-if-present-else-append (Redis hashes have at most one entry per key),
  `hget` of a missing key or field is `none`, `delete` removes the key, and
  `KEYS <pat>*` is modelled as literal-prefix matching on the key list (the
  store only ever uses the pattern `f"{self.prefix}vector:*"`, whose only glob
  metacharacter is the trailing `*`; the prefixes used in the repository
  contain no glob metacharacters).
* JSON (de)serialisation (`json.dumps` / `json.loads`) is modelled as the
  identity on parsed values: a stored vector is a `List ℚ` (JSON numbers are
  decimal literals, hence rationals) and metadata is an opaque finite
  string-to-string object.  IEEE floating point is idealised as exact real
  arithmetic: numpy's norm/dot become `Real.sqrt`-based functions on `List ℝ`.
* `datetime.now().isoformat()` is an opaque timestamp string passed in as the
  `now` argument of `addVector`.
* Each public method first checks `if not self.redis_client` and otherwise
  runs its `try:` body against the backend.  We embed the `try:` body of each
  method as a `...Core` function on a `Backend` state, and the public method
  as a wrapper over `Option Backend` (`none` = no client configured).  Backend
  calls themselves are modelled as total (non-throwing); the one data-dependent
  exception inside a `try:` body — `np.dot` raising on a dimension mismatch in
  `search`, which the `except:` turns into `[]` — is modelled explicitly by an
  `Option`-valued scan loop.
-/

/-- Metadata is a JSON object, opaque to the store; modelled as a finite
string-to-string mapping (the store never inspects it). -/
abbrev Metadata := List (String × String)

/-- One Redis hash as written by the store: the three fields set by
`add_vector` (lines 51-53), each possibly absent. -/
structure RedisHash where
  vector : Option (List ℚ)
  metadata : Option Metadata
  created_at : Option String
deriving DecidableEq, Repr

/-- The backend state: an association list from key to hash. -/
abbrev Backend := List (String × RedisHash)

/-- A hash with no fields set. -/
def emptyHash : RedisHash := ⟨none, none, none⟩

/-- Redis `HSET key field value`, generic over which field is updated:
update the hash at `key` if the key exists, otherwise create it. -/
def hsetField : Backend → String → (RedisHash → RedisHash) → Backend
  | [], key, f => [(key, f emptyHash)]
  | kv :: rest, key, f =>
    if kv.1 == key then (kv.1, f kv.2) :: rest
    else kv :: hsetField rest key f

/-- `self.redis_client.hset(key, "vector", vector_json)` (line 51). -/
def hsetVector (b : Backend) (key : String) (v : List ℚ) : Backend :=
  hsetField b key (fun h => { h with vector := some v })

/-- `self.redis_client.hset(key, "metadata", metadata_json)` (line 52). -/
def hsetMetadata (b : Backend) (key : String) (m : Metadata) : Backend :=
  hsetField b key (fun h => { h with metadata := some m })

/-- `self.redis_client.hset(key, "created_at", ...)` (line 53). -/
def hsetCreatedAt (b : Backend) (key : String) (ts : String) : Backend :=
  hsetField b key (fun h => { h with created_at := some ts })

/-- Look up the hash stored at `key`, if any. -/
def hfind (b : Backend) (key : String) : Option RedisHash :=
  (b.find? (fun kv => kv.1 == key)).map (fun kv => kv.2)

/-- Redis `HGET key "vector"`: `none` if the key or the field is absent. -/
def hgetVector (b : Backend) (key : String) : Option (List ℚ) :=
  (hfind b key).bind (fun h => h.vector)

/-- Redis `HGET key "metadata"`. -/
def hgetMetadata (b : Backend) (key : String) : Option Metadata :=
  (hfind b key).bind (fun h => h.metadata)

/-- Redis `HGET key "created_at"`. -/
def hgetCreatedAt (b : Backend) (key : String) : Option String :=
  (hfind b key).bind (fun h => h.created_at)

/-- Redis `DELETE key`: remove the key and all its fields. -/
def delKey (b : Backend) (key : String) : Backend :=
  b.filter (fun kv => !(kv.1 == key))

/-- Boolean list-prefix test used to model the trailing-`*` glob of
`KEYS f"{self.prefix}vector:*"`. -/
def listIsPrefix : List Char → List Char → Bool
  | [], _ => true
  | _ :: _, [] => false
  | a :: as, b :: bs => a == b && listIsPrefix as bs

/-- Redis `KEYS pat*`: every stored key starting with the literal `pat`,
in backend enumeration order. -/
def keysMatching (b : Backend) (pat : String) : List String :=
  (b.map (fun kv => kv.1)).filter (fun k => listIsPrefix pat.data k.data)

/-- `key = f"{self.prefix}vector:{id}"` (line 39 and its copies). -/
def keyFor (pre id : String) : String := pre ++ "vector:" ++ id

/-- A record as returned by `get_vector` / `get_all_vectors`. -/
structure VectorRecord where
  id : String
  vector : List ℚ
  metadata : Metadata
deriving DecidableEq, Repr

/-- The `try:` body of `add_vector` (lines 37-56): serialise and `hset` the
three fields `vector`, `metadata` (defaulting to the empty object when the
argument was `None`), `created_at` (the current timestamp `now`), then
return `True`. -/
def addVectorCore (b : Backend) (pre id : String) (v : List ℚ)
    (m : Option Metadata) (now : String) : Bool × Backend :=
  let key := keyFor pre id
  let md := m.getD []
  (true, hsetCreatedAt (hsetMetadata (hsetVector b key v) key md) key now)

/-- The `try:` body of `get_vector` (lines 67-88): read the `vector` and
`metadata` fields; if the vector field is absent return `None`, otherwise
return the record, with metadata defaulting to the empty object. -/
def getVectorCore (b : Backend) (pre id : String) : Option VectorRecord :=
  let key := keyFor pre id
  match hgetVector b key with
  | none => none
  | some v => some ⟨id, v, (hgetMetadata b key).getD []⟩

/-- The `try:` body of `delete_vector` (lines 99-107): delete the key and
return `True` whether or not it existed. -/
def deleteVectorCore (b : Backend) (pre id : String) : Bool × Backend :=
  (true, delKey b (keyFor pre id))

/-- The `try:` body of `count_vectors` (lines 226-232): the number of keys
matching `f"{self.prefix}vector:*"`. -/
def countVectorsCore (b : Backend) (pre : String) : Nat :=
  (keysMatching b (pre ++ "vector:")).length

/-- Model of `key.split(":")[-1]` on a character list (lines 153 and 206):
the last element of a colon-split is the maximal colon-free suffix. -/
def lastColonSeg (cs : List Char) : List Char :=
  (cs.reverse.takeWhile (fun c => !(c == ':'))).reverse

/-- `id = key.split(":")[-1]` — the id field reported by `search` and
`get_all_vectors` (the `bytes` branch of line 153/206 is the identity under
our abstraction of byte strings). -/
def extractId (key : String) : String := ⟨lastColonSeg key.data⟩

/-- The `try:` body of `get_all_vectors` (lines 179-215): enumerate matching
keys, return `[]` if there are none, truncate the key list to `limit`, and
deserialise each key that still has a `vector` field, skipping the rest. -/
def getAllVectorsCore (b : Backend) (pre : String) (lim : Nat) : List VectorRecord :=
  let allKeys := keysMatching b (pre ++ "vector:")
  if allKeys.isEmpty then []
  else
    (allKeys.take lim).filterMap (fun key =>
      match hgetVector b key with
      | none => none
      | some v => some ⟨extractId key, v, (hgetMetadata b key).getD []⟩)

/-- The `try:` body of `clear` (lines 243-256): enumerate matching keys;
if there are none return `True` immediately, otherwise delete each key and
return `True`. -/
def clearCore (b : Backend) (pre : String) : Bool × Backend :=
  let allKeys := keysMatching b (pre ++ "vector:")
  if allKeys.isEmpty then (true, b)
  else (true, allKeys.foldl delKey b)

/-- Public `add_vector` (lines 31-59): returns `False` with no backend call
when no client is configured, else runs the core. -/
def addVector (client : Option Backend) (pre id : String) (v : List ℚ)
    (m : Option Metadata) (now : String) : Bool × Option Backend :=
  match client with
  | none => (false, none)
  | some b =>
    let r := addVectorCore b pre id v m now
    (r.1, some r.2)

/-- Public `get_vector` (lines 61-91). -/
def getVector (client : Option Backend) (pre id : String) : Option VectorRecord :=
  match client with
  | none => none
  | some b => getVectorCore b pre id

/-- Public `delete_vector` (lines 93-110). -/
def deleteVector (client : Option Backend) (pre id : String) : Bool × Option Backend :=
  match client with
  | none => (false, none)
  | some b =>
    let r := deleteVectorCore b pre id
    (r.1, some r.2)

/-- Public `get_all_vectors` (lines 173-218). -/
def getAllVectors (client : Option Backend) (pre : String) (lim : Nat) : List VectorRecord :=
  match client with
  | none => []
  | some b => getAllVectorsCore b pre lim

/-- Public `count_vectors` (lines 220-235). -/
def countVectors (client : Option Backend) (pre : String) : Nat :=
  match client with
  | none => 0
  | some b => countVectorsCore b pre

/-- Public `clear` (lines 237-259). -/
def clear (client : Option Backend) (pre : String) : Bool × Option Backend :=
  match client with
  | none => (false, none)
  | some b =>
    let r := clearCore b pre
    (r.1, some r.2)

/-- One entry of the list returned by `search` (lines 155-159). -/
structure SearchResult where
  id : String
  similarity : ℝ
  metadata : Metadata

/-- Sum of squares of the entries of a vector. -/
noncomputable def sumSq (v : List ℝ) : ℝ := (v.map (fun x => x * x)).sum

/-- `np.linalg.norm(v)` for a 1-d array: the Euclidean norm. -/
noncomputable def euclNorm (v : List ℝ) : ℝ := Real.sqrt (sumSq v)

/-- `v / np.linalg.norm(v)` (lines 128 and 147): divide every entry by the
Euclidean norm.  There is no guard for a zero norm, exactly as in the
source. -/
noncomputable def normalizeVec (v : List ℝ) : List ℝ :=
  v.map (fun x => x / euclNorm v)

/-- `np.dot(a, b)` for two 1-d arrays of the same length. -/
noncomputable def dotList (a b : List ℝ) : ℝ :=
  (List.zipWith (fun x y => x * y) a b).sum

/-- The scan loop of `search` (lines 133-159) over the enumerated keys,
with `qn` the already-normalized query.  For each key: skip it when the
`vector` field is absent (line 138); otherwise normalize the stored vector
(line 147) and, when the dimensions agree, keep `{id, similarity, metadata}`
exactly when `threshold ≤ similarity` (line 151).  `np.dot` raises on a
dimension mismatch, which aborts the whole loop — the `except:` then makes
`search` return `[]`; the abort is modelled by the `none` result. -/
noncomputable def searchLoop (bk : Backend) (qn : List ℝ) (t : ℝ) :
    List String → Option (List SearchResult)
  | [] => some []
  | key :: rest =>
    match hgetVector bk key with
    | none => searchLoop bk qn t rest
    | some vq =>
      let v : List ℝ := vq.map (fun x : ℚ => (x : ℝ))
      let vn := normalizeVec v
      if v.length = qn.length then
        match searchLoop bk qn t rest with
        | none => none
        | some rs =>
          let sim := dotList qn vn
          some (if t ≤ sim then
              ⟨extractId key, sim, (hgetMetadata bk key).getD []⟩ :: rs
            else rs)
      else none

/-- The `try:` body of `search` (lines 118-168): enumerate matching keys,
return `[]` when there are none, normalize the query (line 128), scan all
keys, sort the surviving records by similarity descending (Python's stable
sort, line 162) and truncate to the first `k` (line 165).  An exception
inside the loop yields `[]` via the `except:` handler. -/
noncomputable def searchCore (b : Backend) (pre : String) (q : List ℝ)
    (k : Nat) (t : ℝ) : List SearchResult :=
  let allKeys := keysMatching b (pre ++ "vector:")
  if allKeys.isEmpty then []
  else
    let qn := normalizeVec q
    match searchLoop b qn t allKeys with
    | none => []
    | some rs =>
      (List.insertionSort (fun r1 r2 => r2.similarity ≤ r1.similarity) rs).take k

/-- Public `search` (lines 112-171). -/
noncomputable def search (client : Option Backend) (pre : String) (q : List ℝ)
    (k : Nat) (t : ℝ) : List SearchResult :=
  match client with
  | none => []
  | some b => searchCore b pre q k t

/-- The Euclidean norms of the stored vectors whose normalization (line 147)
is actually executed during the scan loop of `search`: every key with a
`vector` field, up to and including the first one whose dimension mismatch
makes `np.dot` raise (the normalization on line 147 runs before the dot
product on line 148). -/
noncomputable def scanNorms (bk : Backend) (qlen : Nat) :
    List String → List ℝ
  | [] => []
  | key :: rest =>
    match hgetVector bk key with
    | none => scanNorms bk qlen rest
    | some vq =>
      let v : List ℝ := vq.map (fun x : ℚ => (x : ℝ))
      if v.length = qlen then euclNorm v :: scanNorms bk qlen rest
      else [euclNorm v]

/-- Every denominator `search` divides by during normalization: the query
norm (line 128, reached as soon as the key enumeration is nonempty) followed
by the norms of the scanned stored vectors (line 147).  None of these
divisions is guarded by a zero test in the source. -/
noncomputable def searchDivisors (b : Backend) (pre : String) (q : List ℝ) :
    List ℝ :=
  let allKeys := keysMatching b (pre ++ "vector:")
  if allKeys.isEmpty then []
  else euclNorm q :: scanNorms b q.length allKeys

/-- C5: when no backend client is configured, every public operation returns
its failure sentinel — `add_vector`/`delete_vector`/`clear` return `False`,
`get_vector` returns `None`, `search`/`get_all_vectors` return `[]`, and
`count_vectors` returns `0` — without touching the backend (the embedding of
each operation returns the sentinel before any backend state is consulted,
mirroring the `if not self.redis_client` guard); the embedding is total, so
no operation can raise. -/
theorem c5_no_client_every_operation_returns_sentinel :
    (∀ pre id v m now, addVector none pre id v m now = (false, none))
    ∧ (∀ pre id, getVector none pre id = none)
    ∧ (∀ pre id, deleteVector none pre id = (false, none))
    ∧ (∀ pre q k t, search none pre q k t = [])
    ∧ (∀ pre lim, getAllVectors none pre lim = [])
    ∧ (∀ pre, countVectors none pre = 0)
    ∧ (∀ pre, clear none pre = (false, none)) := by
  refine ⟨?_, ?_, ?_, ?_, ?_, ?_, ?_⟩ <;> intros <;> rfl

/-- Key fact about `hset`: after updating field `f` at `key`, looking up
`key` finds the hash with `f` applied (to the previous hash, or to the empty
hash when the key was absent). -/
theorem hfind_hsetField_self (b : Backend) (key : String) (f : RedisHash → RedisHash) :
    hfind (hsetField b key f) key = some (f ((hfind b key).getD emptyHash)) := by
  induction b with
  | nil => simp [hsetField, hfind]
  | cons kv rest ih =>
    cases hb : kv.1 == key with
    | true => simp [hsetField, hb, hfind, List.find?_cons, Option.getD]
    | false => simpa [hsetField, hb, hfind, List.find?_cons] using ih

/-- `hset` at a key that is already present does not change the key list. -/
theorem map_fst_hsetField_of_isSome (b : Backend) (key : String)
    (f : RedisHash → RedisHash) (h : (hfind b key).isSome = true) :
    (hsetField b key f).map (fun kv => kv.1) = b.map (fun kv => kv.1) := by
  induction b with
  | nil => simp [hfind] at h
  | cons kv rest ih =>
    cases hb : kv.1 == key with
    | true => simp [hsetField, hb]
    | false =>
      have h' : (hfind rest key).isSome = true := by
        simpa [hfind, List.find?_cons, hb] using h
      simp [hsetField, hb, ih h']

/-- Looking up the stored hash right after `add_vector`'s three `hset`
calls: all three fields hold the values of that call. -/
theorem hfind_addVectorCore (b : Backend) (pre id : String) (v : List ℚ)
    (m : Option Metadata) (now : String) :
    hfind (addVectorCore b pre id v m now).2 (keyFor pre id)
      = some ⟨some v, some (m.getD []), some now⟩ := by
  simp [addVectorCore, hsetVector, hsetMetadata, hsetCreatedAt,
    hfind_hsetField_self]

/-- Round-trip at the core level: `get_vector` right after `add_vector`
returns the inserted vector and metadata (the latter defaulted when the
call passed `None`). -/
theorem getVectorCore_addVectorCore (b : Backend) (pre id : String)
    (v : List ℚ) (m : Option Metadata) (now : String) :
    getVectorCore (addVectorCore b pre id v m now).2 pre id
      = some ⟨id, v, m.getD []⟩ := by
  simp [getVectorCore, hgetVector, hgetMetadata, hfind_addVectorCore]

/-- `add_vector` at a key that is already present leaves the key list
unchanged. -/
theorem map_fst_addVectorCore_of_isSome (b : Backend) (pre id : String)
    (v : List ℚ) (m : Option Metadata) (now : String)
    (h : (hfind b (keyFor pre id)).isSome = true) :
    (addVectorCore b pre id v m now).2.map (fun kv => kv.1)
      = b.map (fun kv => kv.1) := by
  simp only [addVectorCore, hsetVector, hsetMetadata, hsetCreatedAt]
  rw [map_fst_hsetField_of_isSome _ _ _ (by simp [hfind_hsetField_self]),
    map_fst_hsetField_of_isSome _ _ _ (by simp [hfind_hsetField_self]),
    map_fst_hsetField_of_isSome _ _ _ h]

/-- `keys` only depends on the key list. -/
theorem keysMatching_congr (b b' : Backend) (pat : String)
    (h : b.map (fun kv => kv.1) = b'.map (fun kv => kv.1)) :
    keysMatching b pat = keysMatching b' pat := by
  simp [keysMatching, h]

/-- C1 counterexample: `add_vector` sets `created_at` unconditionally
(line 53), so overwriting an existing id replaces the stored `created_at`
with the new call's timestamp — it is NOT preserved from the first
insertion. -/
theorem c1_created_at_counterexample :
    hgetCreatedAt (addVectorCore [] "btagent:" "a" [1] none
        "2024-01-01T00:00:00").2 (keyFor "btagent:" "a")
      = some "2024-01-01T00:00:00"
    ∧ hgetCreatedAt (addVectorCore
        (addVectorCore [] "btagent:" "a" [1] none "2024-01-01T00:00:00").2
        "btagent:" "a" [2] none "2024-01-02T00:00:00").2 (keyFor "btagent:" "a")
      = some "2024-01-02T00:00:00"
    ∧ ("2024-01-02T00:00:00" : String) ≠ "2024-01-01T00:00:00" := by
  refine ⟨by decide, by decide, by decide⟩

/-- C1 amended: `created_at` is written on every `add_vector` call — after
any call, including one that overwrites an existing record, the stored
`created_at` equals that call's timestamp. -/
theorem c1_created_at_set_on_every_add (b : Backend) (pre id : String)
    (v : List ℚ) (m : Option Metadata) (now : String) :
    hgetCreatedAt (addVectorCore b pre id v m now).2 (keyFor pre id)
      = some now := by
  simp [hgetCreatedAt, hfind_addVectorCore]

/-- C2: on an available backend, `add_vector(id, v, m)` followed by
`get_vector(id)` returns a record whose vector is `v` and whose metadata is
`m` (exact equality: JSON round-tripping is modelled as the identity and
float arithmetic as exact). -/
theorem c2_add_get_roundtrip (b : Backend) (pre id : String) (v : List ℚ)
    (m : Metadata) (now : String) :
    getVector (addVector (some b) pre id v (some m) now).2 pre id
      = some ⟨id, v, m⟩ := by
  simpa using getVectorCore_addVectorCore b pre id v (some m) now

/-- C3: two successive `add_vector` calls with the same id behave as an
upsert — afterwards `get_vector` returns only the second call's vector and
metadata, and `count_vectors` is the same after the second call as after
the first. -/
theorem c3_upsert_overwrites_and_count_stable (b : Backend) (pre id : String)
    (v1 v2 : List ℚ) (m1 m2 : Option Metadata) (t1 t2 : String) :
    getVector (addVector (addVector (some b) pre id v1 m1 t1).2
        pre id v2 m2 t2).2 pre id
      = some ⟨id, v2, m2.getD []⟩
    ∧ countVectors (addVector (addVector (some b) pre id v1 m1 t1).2
        pre id v2 m2 t2).2 pre
      = countVectors (addVector (some b) pre id v1 m1 t1).2 pre := by
  constructor
  · simpa using
      getVectorCore_addVectorCore (addVectorCore b pre id v1 m1 t1).2
        pre id v2 m2 t2
  · have hpres : (hfind (addVectorCore b pre id v1 m1 t1).2
        (keyFor pre id)).isSome = true := by
      simp [hfind_addVectorCore]
    have hmap := map_fst_addVectorCore_of_isSome
      (addVectorCore b pre id v1 m1 t1).2 pre id v2 m2 t2 hpres
    simp only [addVector, countVectors, countVectorsCore]
    rw [keysMatching_congr _ _ _ hmap]

/-- Key deletion makes a subsequent lookup of that key miss. -/
theorem hfind_delKey_self (b : Backend) (key : String) :
    hfind (delKey b key) key = none := by
  induction b with
  | nil => rfl
  | cons kv rest ih =>
    cases hb : kv.1 == key with
    | true => simpa [delKey, List.filter_cons, hb, hfind] using ih
    | false => simpa [delKey, List.filter_cons, hb, hfind, List.find?_cons] using ih

/-- C7: on an available backend, `delete_vector(id)` returns `True` whether
or not a record with that id exists (the delete is unconditional and
idempotent), and `get_vector(id)` afterwards returns `None`. -/
theorem c7_delete_idempotent_then_absent (b : Backend) (pre id : String) :
    (deleteVector (some b) pre id).1 = true
    ∧ getVector (deleteVector (some b) pre id).2 pre id = none := by
  constructor
  · rfl
  · simp [deleteVector, getVector, getVectorCore, deleteVectorCore,
      hgetVector, hfind_delKey_self]

/-- C10: `count_vectors` counts every key under the namespace (including
keys with no `vector` field), while `get_all_vectors` skips keys without a
`vector` field — so with a limit at least the count, `get_all_vectors`
returns at most `count_vectors()` records. -/
theorem c10_count_bounds_get_all (b : Backend) (pre : String) (lim : Nat)
    (h : countVectors (some b) pre ≤ lim) :
    (getAllVectors (some b) pre lim).length ≤ countVectors (some b) pre := by
  simp only [getAllVectors, countVectors, getAllVectorsCore,
    countVectorsCore] at h ⊢
  split
  · simp
  · rw [List.take_of_length_le h]
    exact List.length_filterMap_le _ _

/-- Witness for C10 at a concrete state containing one key whose `vector`
field is missing: the count is 1 but `get_all_vectors` returns nothing. -/
theorem c10_count_bounds_get_all_witness :
    countVectors (some [(("btagent:vector:a" : String),
        (⟨none, none, none⟩ : RedisHash))]) "btagent:" ≤ 5
    ∧ (getAllVectors (some [(("btagent:vector:a" : String),
        (⟨none, none, none⟩ : RedisHash))]) "btagent:" 5).length
      ≤ countVectors (some [(("btagent:vector:a" : String),
        (⟨none, none, none⟩ : RedisHash))]) "btagent:" :=
  ⟨by decide, c10_count_bounds_get_all
    [(("btagent:vector:a" : String), (⟨none, none, none⟩ : RedisHash))]
    "btagent:" 5 (by decide)⟩

/-- Deleting a key removes exactly it from the matching-key enumeration. -/
theorem mem_keysMatching_delKey {b : Backend} {k pat x : String}
    (hx : x ∈ keysMatching (delKey b k) pat) :
    x ∈ keysMatching b pat ∧ x ≠ k := by
  simp only [keysMatching, delKey, List.mem_filter, List.mem_map] at hx ⊢
  obtain ⟨⟨kv, ⟨hmem, hne⟩, rfl⟩, hpfx⟩ := hx
  refine ⟨⟨⟨kv, hmem, rfl⟩, hpfx⟩, ?_⟩
  simpa using hne

/-- A key surviving the deletion loop of `clear` was matching before and is
none of the deleted keys. -/
theorem mem_keysMatching_foldl_delKey {pat x : String} :
    ∀ (ks : List String) (b : Backend),
      x ∈ keysMatching (ks.foldl delKey b) pat →
        x ∈ keysMatching b pat ∧ x ∉ ks := by
  intro ks
  induction ks with
  | nil => intro b hx; simpa using hx
  | cons k ks ih =>
    intro b hx
    obtain ⟨h2, h3⟩ := ih (delKey b k) (by simpa using hx)
    have h4 := mem_keysMatching_delKey h2
    exact ⟨h4.1, by simp [List.mem_cons, h4.2, h3]⟩

/-- After `clear`, no key matches the namespace pattern any more. -/
theorem keysMatching_clearCore (b : Backend) (pre : String) :
    keysMatching (clearCore b pre).2 (pre ++ "vector:") = [] := by
  simp only [clearCore]
  split
  · next hemp => simpa [List.isEmpty_iff] using hemp
  · rw [List.eq_nil_iff_forall_not_mem]
    intro x hx
    obtain ⟨hmem, hnot⟩ := mem_keysMatching_foldl_delKey _ _ hx
    exact hnot hmem

/-- C8: on an available backend, after `clear()` the count is 0 and
`get_all_vectors` is empty for every limit; and `clear()` returns `True`
when there were no keys to delete. -/
theorem c8_clear_empties_store (b : Backend) (pre : String) :
    countVectors (clear (some b) pre).2 pre = 0
    ∧ (∀ lim, getAllVectors (clear (some b) pre).2 pre lim = [])
    ∧ (keysMatching b (pre ++ "vector:") = [] → (clear (some b) pre).1 = true) := by
  refine ⟨?_, ?_, ?_⟩
  · simp [clear, countVectors, countVectorsCore, keysMatching_clearCore]
  · intro lim
    simp [clear, getAllVectors, getAllVectorsCore, keysMatching_clearCore]
  · intro _
    have : (clearCore b pre).1 = true := by
      simp only [clearCore]
      split <;> rfl
    simpa [clear] using this

/-- Witness for C8 at the empty backend (no keys to delete). -/
theorem c8_clear_empties_store_witness :
    countVectors (clear (some ([] : Backend)) "btagent:").2 "btagent:" = 0
    ∧ (∀ lim, getAllVectors (clear (some ([] : Backend)) "btagent:").2
        "btagent:" lim = [])
    ∧ (keysMatching ([] : Backend) ("btagent:" ++ "vector:") = [] →
        (clear (some ([] : Backend)) "btagent:").1 = true) :=
  c8_clear_empties_store [] "btagent:"

/-- Every record kept by the scan loop of `search` passed the
`similarity >= threshold` test of line 151. -/
theorem searchLoop_threshold {bk : Backend} {qn : List ℝ} {t : ℝ} :
    ∀ {keys : List String} {rs : List SearchResult},
      searchLoop bk qn t keys = some rs → ∀ r ∈ rs, t ≤ r.similarity := by
  intro keys
  induction keys with
  | nil =>
    intro rs h r hr
    simp only [searchLoop, Option.some.injEq] at h
    subst h
    simp at hr
  | cons key rest ih =>
    intro rs h r hr
    simp only [searchLoop] at h
    cases hv : hgetVector bk key <;> simp only [hv] at h
    · exact ih h r hr
    · split at h
      · cases hrec : searchLoop bk qn t rest <;> simp only [hrec] at h
        · simp at h
        · rw [Option.some.injEq] at h
          subst h
          split at hr
          · next hts =>
            rcases List.mem_cons.mp hr with rfl | hr'
            · exact hts
            · exact ih hrec r hr'
          · exact ih hrec r hr
      · simp at h

/-- Every record produced by the scan loop of `search` carries as its id the
`key.split(":")[-1]` extraction of one of the scanned keys (line 153). -/
theorem searchLoop_id_of_mem {bk : Backend} {qn : List ℝ} {t : ℝ} :
    ∀ {keys : List String} {rs : List SearchResult},
      searchLoop bk qn t keys = some rs → ∀ r ∈ rs,
        ∃ key ∈ keys, r.id = extractId key := by
  intro keys
  induction keys with
  | nil =>
    intro rs h r hr
    simp only [searchLoop, Option.some.injEq] at h
    subst h
    simp at hr
  | cons key rest ih =>
    intro rs h r hr
    simp only [searchLoop] at h
    cases hv : hgetVector bk key <;> simp only [hv] at h
    · obtain ⟨key', hk', hid⟩ := ih h r hr
      exact ⟨key', List.mem_cons_of_mem _ hk', hid⟩
    · split at h
      · cases hrec : searchLoop bk qn t rest <;> simp only [hrec] at h
        · simp at h
        · rw [Option.some.injEq] at h
          subst h
          split at hr
          · rcases List.mem_cons.mp hr with rfl | hr'
            · exact ⟨key, List.mem_cons_self _ _, rfl⟩
            · obtain ⟨key', hk', hid⟩ := ih hrec r hr'
              exact ⟨key', List.mem_cons_of_mem _ hk', hid⟩
          · obtain ⟨key', hk', hid⟩ := ih hrec r hr
            exact ⟨key', List.mem_cons_of_mem _ hk', hid⟩
      · simp at h

/-- C4: no element of the list returned by `search(q, k, t)` has a
similarity strictly below the threshold `t` — the scan keeps a record only
when `t ≤ similarity`, and sorting and truncation only select among the
kept records. -/
theorem c4_search_respects_threshold (client : Option Backend) (pre : String)
    (q : List ℝ) (k : Nat) (t : ℝ) (r : SearchResult)
    (hr : r ∈ search client pre q k t) : t ≤ r.similarity := by
  cases client with
  | none => simp [search] at hr
  | some b =>
    simp only [search, searchCore] at hr
    split at hr
    · simp at hr
    · cases hrec : searchLoop b (normalizeVec q) t
          (keysMatching b (pre ++ "vector:")) <;> simp only [hrec] at hr
      · simp at hr
      · next rs =>
        have h1 := List.mem_of_mem_take hr
        have h2 := (List.mem_insertionSort _).mp h1
        exact searchLoop_threshold hrec r h2

/-- C6: the normalization step of `search` divides by the Euclidean norm
with no zero test — whenever the query (line 128) or a scanned stored
vector (line 147) has zero magnitude, zero is among the denominators
`search` divides by, and the normalization of a zero-magnitude vector is
literally an entrywise division by `0`. -/
theorem c6_normalization_divides_by_zero (b : Backend) (pre : String)
    (q : List ℝ) (hk : (keysMatching b (pre ++ "vector:")).isEmpty = false)
    (h : euclNorm q = 0
      ∨ (0:ℝ) ∈ scanNorms b q.length (keysMatching b (pre ++ "vector:"))) :
    (0:ℝ) ∈ searchDivisors b pre q
    ∧ ∀ w : List ℝ, euclNorm w = 0 →
        normalizeVec w = w.map (fun x => x / 0) := by
  constructor
  · simp only [searchDivisors, hk, Bool.false_eq_true, if_false]
    rcases h with h | h
    · rw [← h]
      exact List.mem_cons_self _ _
    · exact List.mem_cons_of_mem _ h
  · intro w hw
    simp only [normalizeVec, hw]

/-- `takeWhile` never looks past a failing element. -/
theorem takeWhile_append_of_not {p : Char → Bool} {x : Char}
    (hx : p x = false) :
    ∀ (as bs : List Char), (as ++ x :: bs).takeWhile p = as.takeWhile p := by
  intro as bs
  induction as with
  | nil => simp [List.takeWhile_cons, hx]
  | cons a as ih => cases ha : p a <;> simp [List.takeWhile_cons, ha, ih]

/-- The maximal colon-free suffix only depends on what follows the last
colon. -/
theorem lastColonSeg_append (xs ys : List Char) :
    lastColonSeg (xs ++ ':' :: ys) = lastColonSeg ys := by
  unfold lastColonSeg
  rw [List.reverse_append, List.reverse_cons, List.append_assoc,
    List.singleton_append, takeWhile_append_of_not (by decide)]

/-- The maximal colon-free suffix contains no colon. -/
theorem colon_not_mem_lastColonSeg (cs : List Char) :
    ':' ∉ lastColonSeg cs := by
  intro h
  unfold lastColonSeg at h
  rw [List.mem_reverse] at h
  have := List.mem_takeWhile_imp h
  simp at this

/-- When a character list contains a colon, chopping at the last colon
changes it. -/
theorem lastColonSeg_ne_of_mem {cs : List Char} (h : ':' ∈ cs) :
    lastColonSeg cs ≠ cs := by
  intro he
  exact colon_not_mem_lastColonSeg cs (by rw [he]; exact h)

/-- A list is a Boolean prefix of itself followed by anything. -/
theorem listIsPrefix_self_append :
    ∀ (l m : List Char), listIsPrefix l (l ++ m) = true := by
  intro l m
  induction l with
  | nil => rfl
  | cons a as ih => simp [listIsPrefix, ih]

/-- `key.split(":")[-1]` applied to the derived key
`f"{prefix}vector:{id}"` yields the part of `id` after its last colon
(the `vector:` component contributes the final guaranteed colon). -/
theorem extractId_keyFor (pre id : String) :
    extractId (keyFor pre id) = ⟨lastColonSeg id.data⟩ := by
  have hd : (keyFor pre id).data
      = (pre.data ++ ['v', 'e', 'c', 't', 'o', 'r']) ++ ':' :: id.data := by
    simp only [keyFor, String.data_append]
    simp [List.append_assoc]
  unfold extractId
  rw [hd, lastColonSeg_append]

/-- Every record returned by `get_all_vectors` carries as its id the
`key.split(":")[-1]` extraction of one of the enumerated keys (line 206). -/
theorem getAllVectorsCore_id_of_mem {b : Backend} {pre : String} {lim : Nat}
    {r : VectorRecord} (hr : r ∈ getAllVectorsCore b pre lim) :
    ∃ key ∈ keysMatching b (pre ++ "vector:"), r.id = extractId key := by
  simp only [getAllVectorsCore] at hr
  split at hr
  · simp at hr
  · obtain ⟨key, hk, hkey⟩ := List.mem_filterMap.mp hr
    refine ⟨key, List.mem_of_mem_take hk, ?_⟩
    cases hv : hgetVector b key <;> simp only [hv] at hkey
    · simp at hkey
    · rw [Option.some.injEq] at hkey
      subst hkey
      rfl

/-- Every record returned by `search` carries as its id the
`key.split(":")[-1]` extraction of one of the enumerated keys (line 153). -/
theorem searchCore_id_of_mem {b : Backend} {pre : String} {q : List ℝ}
    {k : Nat} {t : ℝ} {r : SearchResult} (hr : r ∈ searchCore b pre q k t) :
    ∃ key ∈ keysMatching b (pre ++ "vector:"), r.id = extractId key := by
  simp only [searchCore] at hr
  split at hr
  · simp at hr
  · cases hrec : searchLoop b (normalizeVec q) t
        (keysMatching b (pre ++ "vector:")) <;> simp only [hrec] at hr
    · simp at hr
    · next rs =>
      have h1 := List.mem_of_mem_take hr
      have h2 := (List.mem_insertionSort _).mp h1
      exact searchLoop_id_of_mem hrec r h2

/-- C9: for an id containing a colon, the id reported by `search` and
`get_all_vectors` is only the part of the stored id after its last colon —
not the id that was passed to `add_vector` — even though `get_vector` with
the full id still finds the record.  (Shown for a store holding exactly the
one inserted record, so that the reported ids are exactly the truncations
of the inserted id.) -/
theorem c9_reported_id_truncated_at_last_colon (pre id : String)
    (v : List ℚ) (m : Option Metadata) (now : String) (st : Backend)
    (hst : st = (addVectorCore [] pre id v m now).2)
    (hc : ':' ∈ id.data) :
    extractId (keyFor pre id) = ⟨lastColonSeg id.data⟩
    ∧ extractId (keyFor pre id) ≠ id
    ∧ (∀ lim r, r ∈ getAllVectorsCore st pre lim →
        r.id = extractId (keyFor pre id))
    ∧ (∀ (q : List ℝ) (k : Nat) (t : ℝ) r, r ∈ searchCore st pre q k t →
        r.id = extractId (keyFor pre id))
    ∧ getVectorCore st pre id = some ⟨id, v, m.getD []⟩ := by
  have hst' : st = [(keyFor pre id,
      ⟨some v, some (m.getD []), some now⟩)] := by
    subst hst
    simp [addVectorCore, hsetVector, hsetMetadata, hsetCreatedAt, hsetField]
  have hpd : (keyFor pre id).data
      = (pre.data ++ ['v', 'e', 'c', 't', 'o', 'r', ':']) ++ id.data := by
    simp [keyFor, String.data_append, List.append_assoc]
  have hpfx : listIsPrefix (pre.data ++ ['v', 'e', 'c', 't', 'o', 'r', ':'])
      (keyFor pre id).data = true := by
    rw [hpd]
    exact listIsPrefix_self_append _ _
  have hkeys : keysMatching st (pre ++ "vector:") = [keyFor pre id] := by
    rw [hst']
    simp only [keysMatching, List.map_cons, List.map_nil]
    simp [hpfx]
  refine ⟨extractId_keyFor pre id, ?_, ?_, ?_, ?_⟩
  · intro he
    have hdata : lastColonSeg id.data = id.data := by
      have := congrArg String.data ((extractId_keyFor pre id).symm.trans he)
      simpa using this
    exact lastColonSeg_ne_of_mem hc hdata
  · intro lim r hr
    obtain ⟨key, hk, hid⟩ := getAllVectorsCore_id_of_mem hr
    rw [hkeys] at hk
    rw [List.mem_singleton] at hk
    subst hk
    exact hid
  · intro q k t r hr
    obtain ⟨key, hk, hid⟩ := searchCore_id_of_mem hr
    rw [hkeys] at hk
    rw [List.mem_singleton] at hk
    subst hk
    exact hid
  · rw [hst]
    exact getVectorCore_addVectorCore [] pre id v m now

/-- Witness for C9 at the concrete id `"a:b"`: the reported id is `"b"`. -/
theorem c9_reported_id_truncated_at_last_colon_witness :
    (':' ∈ ("a:b" : String).data)
    ∧ (extractId (keyFor "p:" "a:b") = ⟨lastColonSeg ("a:b" : String).data⟩
      ∧ extractId (keyFor "p:" "a:b") ≠ "a:b"
      ∧ (∀ lim r, r ∈ getAllVectorsCore
            (addVectorCore [] "p:" "a:b" [1] none "ts").2 "p:" lim →
          r.id = extractId (keyFor "p:" "a:b"))
      ∧ (∀ (q : List ℝ) (k : Nat) (t : ℝ) r, r ∈ searchCore
            (addVectorCore [] "p:" "a:b" [1] none "ts").2 "p:" q k t →
          r.id = extractId (keyFor "p:" "a:b"))
      ∧ getVectorCore (addVectorCore [] "p:" "a:b" [1] none "ts").2 "p:" "a:b"
        = some ⟨"a:b", [1], []⟩) :=
  ⟨by decide, c9_reported_id_truncated_at_last_colon "p:" "a:b" [1] none "ts"
    (addVectorCore [] "p:" "a:b" [1] none "ts").2 rfl (by decide)⟩

/-- Witness for C6: a query of zero magnitude against a store holding one
vector — zero is among the denominators of the normalization step. -/
theorem c6_normalization_divides_by_zero_witness :
    ((keysMatching [(("btagent:vector:z" : String),
        (⟨some [0], none, none⟩ : RedisHash))] ("btagent:" ++ "vector:")).isEmpty
      = false)
    ∧ euclNorm [(0:ℝ)] = 0
    ∧ ((0:ℝ) ∈ searchDivisors [(("btagent:vector:z" : String),
        (⟨some [0], none, none⟩ : RedisHash))] "btagent:" [(0:ℝ)]
      ∧ ∀ w : List ℝ, euclNorm w = 0 →
          normalizeVec w = w.map (fun x => x / 0)) :=
  ⟨by decide, by simp [euclNorm, sumSq],
    c6_normalization_divides_by_zero _ "btagent:" [(0:ℝ)] (by decide)
      (Or.inl (by simp [euclNorm, sumSq]))⟩

/-- Evaluation of the `search` scan on a one-record store whose single
record passes the dimension and threshold tests: the result is exactly that
record. -/
theorem searchCore_singleton (key : String) (hsh : RedisHash) (v : List ℚ)
    (pre : String) (q : List ℝ) (k : Nat) (t : ℝ)
    (hk : keysMatching [(key, hsh)] (pre ++ "vector:") = [key])
    (hv : hsh.vector = some v)
    (hlen : (v.map (fun x : ℚ => (x : ℝ))).length = (normalizeVec q).length)
    (hts : t ≤ dotList (normalizeVec q)
      (normalizeVec (v.map (fun x : ℚ => (x : ℝ)))))
    (hkpos : k ≠ 0) :
    searchCore [(key, hsh)] pre q k t
      = [⟨extractId key, dotList (normalizeVec q)
          (normalizeVec (v.map (fun x : ℚ => (x : ℝ)))),
          (hsh.metadata).getD []⟩] := by
  have hgv : hgetVector [(key, hsh)] key = some v := by
    simp [hgetVector, hfind, hv]
  have hgm : hgetMetadata [(key, hsh)] key = hsh.metadata := by
    simp [hgetMetadata, hfind]
  simp only [searchCore, hk, List.isEmpty_cons, Bool.false_eq_true, if_false,
    searchLoop, hgv, hgm]
  rw [if_pos hlen, if_pos hts]
  cases k with
  | zero => exact absurd rfl hkpos
  | succ n => simp [List.insertionSort, List.orderedInsert]

/-- Witness for C4 at a one-record store: the query `[1]` matches the
stored vector `[1]` with similarity `1`, which is at least the threshold
`0`. -/
theorem c4_search_respects_threshold_witness :
    ((⟨"a", 1, []⟩ : SearchResult) ∈ search
      (some [(("btagent:vector:a" : String),
        (⟨some [1], some [], some "ts"⟩ : RedisHash))]) "btagent:" [(1:ℝ)] 5 0)
    ∧ (0:ℝ) ≤ (⟨"a", 1, []⟩ : SearchResult).similarity := by
  have hnorm : normalizeVec [(1:ℝ)] = [1] := by
    simp [normalizeVec, euclNorm, sumSq]
  have hcast : List.map (fun x : ℚ => (x : ℝ)) [(1:ℚ)] = [(1:ℝ)] := by
    norm_num
  have hsim1 : dotList (normalizeVec [(1:ℝ)])
      (normalizeVec (List.map (fun x : ℚ => (x : ℝ)) [(1:ℚ)])) = 1 := by
    rw [hcast, hnorm]
    simp [dotList]
  have hsc : searchCore [(("btagent:vector:a" : String),
      (⟨some [1], some [], some "ts"⟩ : RedisHash))] "btagent:" [(1:ℝ)] 5 0
      = [⟨extractId "btagent:vector:a", dotList (normalizeVec [(1:ℝ)])
          (normalizeVec (List.map (fun x : ℚ => (x : ℝ)) [(1:ℚ)])), []⟩] :=
    searchCore_singleton "btagent:vector:a" ⟨some [1], some [], some "ts"⟩
      [(1:ℚ)] "btagent:" [(1:ℝ)] 5 0 (by decide) rfl
      (by simp [normalizeVec])
      (by rw [hsim1]; norm_num)
      (by norm_num)
  have hmem : (⟨"a", 1, []⟩ : SearchResult) ∈ search
      (some [(("btagent:vector:a" : String),
        (⟨some [1], some [], some "ts"⟩ : RedisHash))]) "btagent:" [(1:ℝ)] 5 0 := by
    simp only [search]
    rw [hsc, hsim1]
    rw [show extractId "btagent:vector:a" = "a" from by decide]
    exact List.mem_singleton.mpr rfl
  exact ⟨hmem, c4_search_respects_threshold _ _ _ _ _ _ hmem⟩
